import Mathlib

/-!
Verification of the PINN trainer (`pinn.py`): a shallow embedding of the
configuration derivation, residual selection, stabilized-initialization loop,
training-phase schedules, and the extracellular-potential reconstruction,
together with theorems settling the specification's claims about them.

Conventions of the embedding:
* Python floats that the program only creates from decimal literals and
  compares or combines exactly are modelled as `ℚ`; `NaN` is modelled by
  `Option ℚ` with `none` for `NaN` (propagating through arithmetic).
* A Python attribute that may be unset is an `Option` field; reading an unset
  attribute is an `attributeError`.
* Falling through an `if`/`elif` chain that leaves a local variable unassigned
  surfaces as an unbound-local error at the first use of that variable.
* `np.sqrt` is abstracted as a parameter `sqrtFn : ℚ → ℚ`; the theorems that
  depend on its output only assume it is positive on positive input, which is
  true of the floating-point square root.
-/

/-! ## Configuration (`PINN.__init__` and `PINN.modify_2d_const`) -/

/-- The hyperparameter attributes set by `PINN.__init__`, with the source's
attribute names. Epoch counts and sizes are `ℕ`; the learning rate and the
loss cap are exact decimal literals in the source, modelled as `ℚ`. -/
structure HParams where
  input : ℕ
  num_hidden_layers : ℕ
  hidden_layer_size : ℕ
  output : ℕ
  num_domain : ℕ
  num_boundary : ℕ
  num_test : ℕ
  MAX_MODEL_INIT : ℕ
  MAX_LOSS : ℚ
  epochs_init : ℕ
  epochs_main : ℕ
  lr : ℚ
  deriving DecidableEq

/-- The 1D defaults assigned in the body of `PINN.__init__`
(before `modify_2d_const` runs). -/
def initHParams : HParams :=
  { input := 2
    num_hidden_layers := 4
    hidden_layer_size := 32
    output := 2 + 1
    num_domain := 20000
    num_boundary := 1000
    num_test := 1000
    MAX_MODEL_INIT := 16
    MAX_LOSS := 4
    epochs_init := 15000
    epochs_main := 1000
    lr := 0.0005 }

/-- `PINN.modify_2d_const`: the three conditional overlays applied in order.
`inverse` models the Python flag string, with `""` for both Python `None`
and the empty string (both are falsy and behave identically in the source). -/
def modify_2d_const (dim : ℕ) (heter : Bool) (inverse : String) (p : HParams) : HParams :=
  let p1 :=
    if dim = 2 then
      { p with
        input := 3
        num_hidden_layers := 5
        hidden_layer_size := 60
        num_domain := 40000
        num_boundary := 4000
        epochs_main := 150000 }
    else p
  let p2 := if heter then { p1 with output := 3 } else p1
  if inverse ≠ "" then { p2 with lr := 0.0001 } else p2

/-- The hyperparameters held by a freshly constructed `PINN` object:
the 1D defaults followed by the `modify_2d_const` overlays. -/
def pinn_init (dim : ℕ) (heter : Bool) (inverse : String) : HParams :=
  modify_2d_const dim heter inverse initHParams

/-! ## Model assembly (`PINN.define_pinn`): residual selection -/

/-- The four PDE residual functions the dynamics collaborator exposes. -/
inductive PdeChoice
  | pde_1D
  | pde_2D
  | pde_2D_heter
  | pde_2D_heter_forward
  deriving DecidableEq

/-- The two output transforms the dynamics collaborator exposes. -/
inductive OutTransform
  | modify_heter
  | modify_inv_heter
  deriving DecidableEq

/-- Failure modes of `define_pinn`'s residual selection.
`unboundLocalPde` models Python's `UnboundLocalError`, raised when the
`if`/`elif` chain assigns no `pde` and line 66 then reads it.
`unsupportedConfiguration` is the explicit configuration error the
specification calls for; it exists here so that claims about it can be
stated, and the source never produces it. -/
inductive AssemblyError
  | unboundLocalPde
  | unsupportedConfiguration
  deriving DecidableEq

/-- The residual/output-transform selection of `PINN.define_pinn`
(lines 52–63), translated branch by branch. A configuration that matches no
branch leaves the local `pde` unassigned, so the subsequent use of `pde`
raises an unbound-local error. -/
def define_pinn_select (dim : ℕ) (heter : Bool) (inverse : String) :
    Except AssemblyError (PdeChoice × Option OutTransform) :=
  if dim = 1 then
    Except.ok (PdeChoice.pde_1D, none)
  else if dim = 2 ∧ heter = true then
    (if inverse ≠ "" ∧ 'd' ∈ inverse.data then
      Except.ok (PdeChoice.pde_2D_heter, some OutTransform.modify_inv_heter)
    else
      Except.ok (PdeChoice.pde_2D_heter_forward, some OutTransform.modify_heter))
  else if dim = 2 ∧ heter = false then
    Except.ok (PdeChoice.pde_2D, none)
  else
    Except.error AssemblyError.unboundLocalPde

/-! ## Stabilized initialization (`PINN.stable_init`) -/

/-- Outcome of `stable_init`, instrumented with the number of one-epoch
`model.train` calls performed. `accepted` is the source's normal return;
`initExceeded` is the `ValueError` raised when the attempt counter passes
`MAX_MODEL_INIT`. -/
inductive InitResult
  | accepted (trainCalls : ℕ)
  | initExceeded (trainCalls : ℕ)
  deriving DecidableEq

/-- Number of one-epoch training calls an outcome records. -/
def trainCallsOf : InitResult → ℕ
  | InitResult.accepted n => n
  | InitResult.initExceeded n => n

/-- The `while` guard of `stable_init`:
`initial_loss > self.MAX_LOSS or np.isnan(initial_loss)`.
The observed per-attempt value `max(losshistory.loss_train[0])` is an
`Option ℚ`, `none` standing for `NaN`. -/
def isBadLoss (maxLoss : ℚ) : Option ℚ → Bool
  | none => true
  | some l => decide (maxLoss < l)

/-- The `while` loop of `stable_init`. `losses n` is the observed
first-epoch loss of the `n`-th one-epoch training call (1-indexed);
`numInit` is the source's `num_init` counter, and the loss currently
bound to `initial_loss` is passed explicitly. Following the source, each
iteration first reinitializes and trains (consuming the next loss) and only
then tests the attempt counter, so the final permitted attempt's loss value
is never examined. The fuel argument only bounds recursion; from
`stable_init` it always exceeds the iterations the counter check allows, so
the fuel-exhausted branch is unreachable. -/
def stableInitLoop (losses : ℕ → Option ℚ) (maxLoss : ℚ) (maxInit : ℕ) :
    ℕ → ℕ → Option ℚ → InitResult
  | 0, numInit, _ => InitResult.initExceeded numInit
  | fuel + 1, numInit, l =>
    if isBadLoss maxLoss l then
      let numInit2 := numInit + 1
      if maxInit < numInit2 then InitResult.initExceeded numInit2
      else stableInitLoop losses maxLoss maxInit fuel numInit2 (losses numInit2)
    else InitResult.accepted numInit

/-- `PINN.stable_init` as a function of the sequence of observed
first-epoch losses: one initial one-epoch training, then the retry loop. -/
def stable_init (losses : ℕ → Option ℚ) (maxLoss : ℚ) (maxInit : ℕ) : InitResult :=
  stableInitLoop losses maxLoss maxInit (maxInit + 1) 1 (losses 1)

/-! ### Loop lemmas shared by the stabilization claims -/

/-- If attempts `k, …, n-1` observe bad losses and attempt `n ≤ maxInit`
observes a good one, the loop entered at attempt `k` accepts at attempt `n`. -/
theorem stableInitLoop_accepts (losses : ℕ → Option ℚ) (maxLoss : ℚ) (maxInit : ℕ) :
    ∀ fuel k n, k ≤ n → n ≤ maxInit → n - k < fuel →
      (∀ m, k ≤ m → m < n → isBadLoss maxLoss (losses m) = true) →
      isBadLoss maxLoss (losses n) = false →
      stableInitLoop losses maxLoss maxInit fuel k (losses k) =
        InitResult.accepted n := by
  intro fuel
  induction fuel with
  | zero => intro k n _ _ hfuel _ _; omega
  | succ fuel ih =>
    intro k n hkn hnmax hfuel hbad hgood
    by_cases hk : k = n
    · subst hk
      simp [stableInitLoop, hgood]
    · have hklt : k < n := lt_of_le_of_ne hkn hk
      have hbk : isBadLoss maxLoss (losses k) = true := hbad k le_rfl hklt
      have hnotover : ¬ maxInit < k + 1 := by omega
      simp only [stableInitLoop, hbk, if_true, hnotover, if_false]
      exact ih (k + 1) n (by omega) hnmax (by omega)
        (fun m hm1 hm2 => hbad m (by omega) hm2) hgood

/-- If every attempt from `k` through `maxInit` observes a bad loss, the loop
entered at attempt `k ≤ maxInit` trains once more at attempt `maxInit + 1`
and then raises. -/
theorem stableInitLoop_exceeds (losses : ℕ → Option ℚ) (maxLoss : ℚ) (maxInit : ℕ) :
    ∀ fuel k, 1 ≤ k → k ≤ maxInit → maxInit - k < fuel →
      (∀ m, k ≤ m → m ≤ maxInit → isBadLoss maxLoss (losses m) = true) →
      stableInitLoop losses maxLoss maxInit fuel k (losses k) =
        InitResult.initExceeded (maxInit + 1) := by
  intro fuel
  induction fuel with
  | zero => intro k _ hk hfuel _; omega
  | succ fuel ih =>
    intro k hk1 hkmax hfuel hbad
    have hbk : isBadLoss maxLoss (losses k) = true := hbad k le_rfl hkmax
    by_cases hk : k = maxInit
    · subst hk
      simp [stableInitLoop, hbk]
    · have hnotover : ¬ maxInit < k + 1 := by omega
      simp only [stableInitLoop, hbk, if_true, hnotover, if_false]
      exact ih (k + 1) (by omega) (by omega) (by omega)
        (fun m hm1 hm2 => hbad m (by omega) hm2)

/-- The loop entered at attempt `k ≤ maxInit` never records more than
`maxInit + 1` one-epoch training calls, whatever the losses are. -/
theorem stableInitLoop_trainCalls_le (losses : ℕ → Option ℚ) (maxLoss : ℚ) (maxInit : ℕ) :
    ∀ fuel k l, k ≤ maxInit →
      trainCallsOf (stableInitLoop losses maxLoss maxInit fuel k l) ≤ maxInit + 1 := by
  intro fuel
  induction fuel with
  | zero => intro k l hk; simp [stableInitLoop, trainCallsOf]; omega
  | succ fuel ih =>
    intro k l hk
    by_cases hb : isBadLoss maxLoss l = true
    · by_cases hover : maxInit < k + 1
      · simp [stableInitLoop, hb, hover, trainCallsOf]; omega
      · simp only [stableInitLoop, hb, if_true, hover, if_false]
        exact ih (k + 1) (losses (k + 1)) (by omega)
    · simp [stableInitLoop, hb, trainCallsOf]; omega

/-! ## Training orchestration (`PINN.train_1_phase`, `PINN.train_3_phase`) -/

/-- The two optimizers the trainer compiles: `"adam"` and `"L-BFGS-B"`. -/
inductive Optimizer
  | adam
  | lbfgsb
  deriving DecidableEq

/-- A `dde.callbacks.VariableValue` observer: tracking period and target file. -/
structure Callback where
  period : ℕ
  filename : String
  deriving DecidableEq

/-- The observable configuration of one `model.train` call: the optimizer in
effect (with its learning rate and per-term loss weights, `none` for the
library's uniform default), the epoch budget (`none` when `train` is called
without one), and the callbacks attached to the call. -/
structure PhaseCfg where
  opt : Optimizer
  lr : Option ℚ
  loss_weights : Option (List ℚ)
  epochs : Option ℕ
  callbacks : List Callback
  deriving DecidableEq

/-- `PINN.train_1_phase`: one training run under the compile from
`define_pinn`/`stable_init` (Adam at the configured learning rate, uniform
loss weights), for `epochs_main` epochs; the variable-tracking callback is
attached when `inverse` is truthy. -/
def train_1_phase (p : HParams) (inverse : String) : List PhaseCfg :=
  if inverse ≠ "" then
    [{ opt := Optimizer.adam, lr := some p.lr, loss_weights := none,
       epochs := some p.epochs_main,
       callbacks := [{ period := 1000, filename := "variables_" ++ inverse ++ ".dat" }] }]
  else
    [{ opt := Optimizer.adam, lr := some p.lr, loss_weights := none,
       epochs := some p.epochs_main, callbacks := [] }]

/-- `PINN.train_3_phase`: warmup (Adam, literal learning rate `0.0005`,
loss weights `[0,0,0,0,1]`, `epochs_init` epochs), main (Adam, configured
learning rate, uniform weights, `epochs_main` epochs), refine (`"L-BFGS-B"`,
no epoch budget). The source duplicates the three phases across the
`if self.inverse` arms, differing only in the attached callback list. -/
def train_3_phase (p : HParams) (inverse : String) : List PhaseCfg :=
  if inverse ≠ "" then
    [{ opt := Optimizer.adam, lr := some 0.0005, loss_weights := some [0, 0, 0, 0, 1],
       epochs := some p.epochs_init,
       callbacks := [{ period := 1000, filename := "variables_" ++ inverse ++ ".dat" }] },
     { opt := Optimizer.adam, lr := some p.lr, loss_weights := none,
       epochs := some p.epochs_main,
       callbacks := [{ period := 1000, filename := "variables_" ++ inverse ++ ".dat" }] },
     { opt := Optimizer.lbfgsb, lr := none, loss_weights := none, epochs := none,
       callbacks := [{ period := 1000, filename := "variables_" ++ inverse ++ ".dat" }] }]
  else
    [{ opt := Optimizer.adam, lr := some 0.0005, loss_weights := some [0, 0, 0, 0, 1],
       epochs := some p.epochs_init, callbacks := [] },
     { opt := Optimizer.adam, lr := some p.lr, loss_weights := none,
       epochs := some p.epochs_main, callbacks := [] },
     { opt := Optimizer.lbfgsb, lr := none, loss_weights := none, epochs := none,
       callbacks := [] }]

/-- The optimizer configuration of a phase with its callbacks stripped,
for comparing schedules across inverse modes. -/
def phaseOptimizerCfg (ph : PhaseCfg) : Optimizer × Option ℚ × Option (List ℚ) × Option ℕ :=
  (ph.opt, ph.lr, ph.loss_weights, ph.epochs)

/-! ## Potential-field reconstruction (`PINN.num_integration`) -/

/-- Dense 2D arrays over exact rationals, indexed as `A i j`. -/
abbrev Mat (m n : ℕ) : Type := Fin m → Fin n → ℚ

/-- `np.gradient(A, h)` along axis 0: one-sided differences at the two edges,
central differences inside. NumPy rejects axes shorter than 2; that case is
given the junk value `0` here and is excluded by hypotheses where it matters. -/
def gradAxis0 {m n : ℕ} (h : ℚ) (v : Mat m n) : Mat m n := fun i j =>
  if hm : m < 2 then 0
  else if h0 : i.val = 0 then (v ⟨1, by omega⟩ j - v i j) / h
  else if hl : i.val = m - 1 then (v i j - v ⟨m - 2, by omega⟩ j) / h
  else (v ⟨i.val + 1, by have := i.isLt; omega⟩ j - v ⟨i.val - 1, by omega⟩ j) / (2 * h)

/-- `np.gradient(A, h)` along axis 1. -/
def gradAxis1 {m n : ℕ} (h : ℚ) (v : Mat m n) : Mat m n := fun i j =>
  if hn : n < 2 then 0
  else if h0 : j.val = 0 then (v i ⟨1, by omega⟩ - v i j) / h
  else if hl : j.val = n - 1 then (v i j - v i ⟨n - 2, by omega⟩) / h
  else (v i ⟨j.val + 1, by have := j.isLt; omega⟩ - v i ⟨j.val - 1, by omega⟩) / (2 * h)

/-- `scipy.ndimage.laplace(A, mode=nearest)`: the sum over both axes of the
`[1, -2, 1]` correlation, with out-of-range neighbours replaced by the
nearest edge value. -/
def ndLaplace {m n : ℕ} (v : Mat m n) : Mat m n := fun i j =>
  let im : Fin m := if h0 : i.val = 0 then i else ⟨i.val - 1, by have := i.isLt; omega⟩
  let ip : Fin m := if hs : i.val + 1 < m then ⟨i.val + 1, hs⟩ else i
  let jm : Fin n := if h0 : j.val = 0 then j else ⟨j.val - 1, by have := j.isLt; omega⟩
  let jp : Fin n := if hs : j.val + 1 < n then ⟨j.val + 1, hs⟩ else j
  (v im j - 2 * v i j + v ip j) + (v i jm - 2 * v i j + v i jp)

/-- NaN-propagating addition on observed values (`none` = NaN or ±Inf). -/
def oadd : Option ℚ → Option ℚ → Option ℚ
  | some a, some b => some (a + b)
  | _, _ => none

/-- NaN-propagating halving, the `/2` of a trapezoid term. -/
def ohalf : Option ℚ → Option ℚ :=
  Option.map (fun a => a / 2)

/-- NaN-propagating negation. -/
def oneg : Option ℚ → Option ℚ :=
  Option.map (fun a => -a)

/-- NaN-propagating sum of a list of values. -/
def osum : List (Option ℚ) → Option ℚ
  | [] => some 0
  | a :: l => oadd a (osum l)

/-- `np.trapezoid(y, axis=0)` with unit sample spacing:
the sum of `(y i + y (i+1)) / 2` over consecutive samples. -/
def otrapz {n : ℕ} (y : Fin n → Option ℚ) : Option ℚ :=
  osum (List.ofFn (fun i : Fin (n - 1) =>
    ohalf (oadd (y ⟨i.val, by have := i.isLt; omega⟩) (y ⟨i.val + 1, by have := i.isLt; omega⟩))))

/-- One entry of `du[1:-1,1:-1] / distance`. A zero entry of `distance`
makes the floating-point division produce NaN (for a zero numerator) or an
infinity, modelled uniformly as `none`; otherwise the quotient by
`sqrtFn` of the squared distance is exact. -/
def divEntry (sqrtFn : ℚ → ℚ) (a dsq : ℚ) : Option ℚ :=
  if dsq = 0 then none else some (a / sqrtFn dsq)

/-- The squared distance `matx**2 + maty**2` at trimmed-grid position
`(c, r)` for an electrode at `(ex, ey)`: the grids are
`np.arange(2, X) - ex` and `np.arange(2, Y) - ey`, so position `(c, r)`
corresponds to the point `(2 + c, 2 + r)`. -/
def distSq (c r : ℕ) (ex ey : ℚ) : ℚ :=
  ((2 + (c : ℚ)) - ex) ^ 2 + ((2 + (r : ℚ)) - ey) ^ 2

/-- The `(c, r)` entry of `du[1:-1,1:-1] / distance` for one electrode. -/
def phieIntegrand {X Y : ℕ} (sqrtFn : ℚ → ℚ) (du : Mat X Y) (ex ey : ℚ)
    (c : Fin (X - 2)) (r : Fin (Y - 2)) : Option ℚ :=
  divEntry sqrtFn
    (du ⟨c.val + 1, by have := c.isLt; omega⟩ ⟨r.val + 1, by have := r.isLt; omega⟩)
    (distSq c.val r.val ex ey)

/-- The potential at one electrode and one time step:
`-np.trapezoid(np.trapezoid(du[1:-1,1:-1]/distance, axis=0), axis=0)`. -/
def phieEntry {X Y : ℕ} (sqrtFn : ℚ → ℚ) (du : Mat X Y) (ex ey : ℚ) : Option ℚ :=
  oneg (otrapz (fun r : Fin (Y - 2) =>
    otrapz (fun c : Fin (X - 2) => phieIntegrand sqrtFn du ex ey c r)))

/-- The source term `4 * D_array * laplace(v_t) + Dx * gx + Dy * gy`,
with `Dx, Dy = np.gradient(D_array, spacing, spacing)` and
`gx, gy = np.gradient(v_t, spacing)`. -/
def duField {X Y : ℕ} (spacing : ℚ) (D_array v_t : Mat X Y) : Mat X Y := fun i j =>
  4 * D_array i j * ndLaplace v_t i j
    + gradAxis0 spacing D_array i j * gradAxis0 spacing v_t i j
    + gradAxis1 spacing D_array i j * gradAxis1 spacing v_t i j

/-- The dynamics collaborator's diffusion coefficient: a scalar, or a 2D
array of some shape. -/
inductive DiffusionField
  | scalar (d : ℚ)
  | array (m n : ℕ) (entries : Fin m → Fin n → ℚ)

/-- Runtime failures of `num_integration`: reading an attribute that was
never assigned, and using the local `D_array` when neither branch of the
`isscalar`/shape chain assigned it. -/
inductive RuntimeErr
  | attributeError
  | unboundLocalDArray
  deriving DecidableEq

/-- Lines 143–146: broadcast a scalar `D` to the `(X, Y)` grid, or strip the
one-cell halo of a `(X+2, Y+2)` array; any other shape leaves `D_array`
unassigned, surfacing as an unbound-local error at its first use. -/
def mkDArray (X Y : ℕ) : DiffusionField → Except RuntimeErr (Mat X Y)
  | DiffusionField.scalar d => Except.ok (fun _ _ => d)
  | DiffusionField.array m n entries =>
    if h : m = X + 2 ∧ n = Y + 2 then
      Except.ok (fun i j =>
        entries ⟨i.val + 1, by have := i.isLt; omega⟩ ⟨j.val + 1, by have := j.isLt; omega⟩)
    else Except.error RuntimeErr.unboundLocalDArray

/-- The dynamics collaborator's fields consumed by `num_integration`,
plus `spacing`, which the specification's data model lists among the
collaborator's physical fields; `pinn.py` itself never reads
`dynamics.spacing` (see the C8 theorems). `elecpos` holds the columns of
the 2×K electrode-position array. -/
structure Dynamics where
  max_x : ℕ
  max_y : ℕ
  max_t : ℕ
  D : DiffusionField
  elecpos : List (ℚ × ℚ)
  spacing : ℚ

/-- A `PINN` object: the constructor arguments, the derived hyperparameters,
and the trainer's own `spacing` attribute, which `PINN.__init__` never
assigns (`none` = attribute absent). -/
structure PINNState where
  dynamics : Dynamics
  dim : ℕ
  heter : Bool
  inverse : String
  hp : HParams
  spacing : Option ℚ

/-- `PINN.__init__`: store the constructor arguments, derive the
hyperparameters; no `spacing` attribute is created on the trainer. -/
def PINN_mk (dynamics : Dynamics) (dim : ℕ) (heter : Bool) (inverse : String) : PINNState :=
  { dynamics := dynamics, dim := dim, heter := heter, inverse := inverse,
    hp := pinn_init dim heter inverse, spacing := none }

/-- Lines 139–140: reshape the flat prediction to `(max_t, max_x, max_y)` in
C order and transpose to `(x, y, t)`. -/
def vtrans (X Y T : ℕ) (vflat : ℕ → ℚ) (x : Fin X) (y : Fin Y) (t : Fin T) : ℚ :=
  vflat (t.val * (X * Y) + x.val * Y + y.val)

/-- The filled `phie_pred` array as a list of rows: row `k` is electrode `k`,
column `t` is time step `t` (the source writes `phie_pred[k, tt-1]` with
`tt = t + 1`). -/
def phieMatrix (sqrtFn : ℚ → ℚ) (spacing : ℚ) (X Y T : ℕ) (elecpos : List (ℚ × ℚ))
    (v : Fin X → Fin Y → Fin T → ℚ) (D_array : Mat X Y) : List (List (Option ℚ)) :=
  List.ofFn (fun k : Fin elecpos.length =>
    List.ofFn (fun t : Fin T =>
      phieEntry sqrtFn (duField spacing D_array (fun i j => v i j t))
        (elecpos.get k).1 (elecpos.get k).2))

/-- `PINN.num_integration` over the loss-free inputs: builds `D_array`
(possibly failing on a malformed shape), then reads the trainer's own
`spacing` attribute (failing when it was never assigned — evaluation of
`np.gradient(D_array, self.spacing, self.spacing)` reaches `D_array`
first, then `self.spacing`), then fills `phie_pred`. -/
def num_integration (sqrtFn : ℚ → ℚ) (p : PINNState) (vflat : ℕ → ℚ) :
    Except RuntimeErr (List (List (Option ℚ))) :=
  match mkDArray p.dynamics.max_x p.dynamics.max_y p.dynamics.D with
  | Except.error e => Except.error e
  | Except.ok D_array =>
    match p.spacing with
    | none => Except.error RuntimeErr.attributeError
    | some spacing =>
      Except.ok (phieMatrix sqrtFn spacing p.dynamics.max_x p.dynamics.max_y
        p.dynamics.max_t p.dynamics.elecpos
        (vtrans p.dynamics.max_x p.dynamics.max_y p.dynamics.max_t vflat) D_array)

/-! ## Claims about configuration (C5, C6) -/

/-- C5 counterexample: a heterogeneous configuration (dimension 1,
heterogeneous, no inverse flag) yields `outputWidth = 3`, not the claimed 4:
`modify_2d_const` assigns `self.output = 3` under `self.heter`. -/
theorem C5_heter_output_counterexample :
    (pinn_init 1 true "").output = 3 ∧ (pinn_init 1 true "").output ≠ 4 := by
  constructor
  · rfl
  · decide

/-- C5 (amended): for every ProblemSpec, heterogeneous or not, the derived
`output` width is 3; the heterogeneous overlay writes the value 3, which is
identical to the non-heterogeneous default `2 + 1`, so heterogeneity does not
add an output channel. -/
theorem C5_heter_output_amended (dim : ℕ) (inverse : String) :
    (pinn_init dim true inverse).output = 3 ∧ (pinn_init dim false inverse).output = 3 := by
  constructor <;>
    · by_cases hdim : dim = 2 <;> by_cases hinv : inverse = "" <;>
        simp [pinn_init, modify_2d_const, initHParams, hdim, hinv]

/-- C6: the hyperparameter derivation is a total function of
`(dim, heter, inverse)`; dimension 1 yields exactly the documented defaults
(with the learning rate switched to `0.0001` by a non-empty inverse flag),
dimension 2 applies exactly the documented six overrides and alters nothing
else, and a non-empty inverse flag always sets the learning rate to `0.0001`. -/
theorem C6_hyperparameter_derivation :
    (∀ (heter : Bool) (inverse : String),
      pinn_init 1 heter inverse =
        { input := 2, num_hidden_layers := 4, hidden_layer_size := 32, output := 3,
          num_domain := 20000, num_boundary := 1000, num_test := 1000,
          MAX_MODEL_INIT := 16, MAX_LOSS := 4, epochs_init := 15000, epochs_main := 1000,
          lr := if inverse ≠ "" then 0.0001 else 0.0005 })
    ∧ (∀ (heter : Bool) (inverse : String),
      pinn_init 2 heter inverse =
        { pinn_init 1 heter inverse with
          input := 3, num_hidden_layers := 5, hidden_layer_size := 60,
          num_domain := 40000, num_boundary := 4000, epochs_main := 150000 })
    ∧ (∀ (dim : ℕ) (heter : Bool) (inverse : String), inverse ≠ "" →
      (pinn_init dim heter inverse).lr = 0.0001) := by
  refine ⟨?_, ?_, ?_⟩
  · intro heter inverse
    by_cases hinv : inverse = "" <;> cases heter <;>
      simp [pinn_init, modify_2d_const, initHParams, hinv]
  · intro heter inverse
    by_cases hinv : inverse = "" <;> cases heter <;>
      simp [pinn_init, modify_2d_const, initHParams, hinv]
  · intro dim heter inverse hinv
    by_cases hdim : dim = 2 <;> cases heter <;>
      simp [pinn_init, modify_2d_const, initHParams, hdim, hinv]

/-- C6 witness: the derivation evaluated at dimension 1 with a non-empty
inverse flag. -/
theorem C6_hyperparameter_derivation_witness :
    (pinn_init 1 false "d").lr = 0.0001 ∧
      pinn_init 1 true "" =
        { input := 2, num_hidden_layers := 4, hidden_layer_size := 32, output := 3,
          num_domain := 20000, num_boundary := 1000, num_test := 1000,
          MAX_MODEL_INIT := 16, MAX_LOSS := 4, epochs_init := 15000, epochs_main := 1000,
          lr := if ("" : String) ≠ "" then 0.0001 else 0.0005 } :=
  ⟨C6_hyperparameter_derivation.2.2 1 false "d" (by decide),
   C6_hyperparameter_derivation.1 true ""⟩

/-! ## Claims about residual selection (C3, C4) -/

/-- C3: the residual-selection table holds row by row: dimension 1 selects
`pde_1D` with no output transform for every heterogeneity and inverse flag;
dimension 2 without heterogeneity selects `pde_2D` with no transform;
dimension 2 with heterogeneity selects `pde_2D_heter` with `modify_inv_heter`
when the inverse flag is truthy and contains the character d, and
`pde_2D_heter_forward` with `modify_heter` otherwise. -/
theorem C3_residual_selection :
    (∀ (heter : Bool) (inverse : String),
      define_pinn_select 1 heter inverse = Except.ok (PdeChoice.pde_1D, none))
    ∧ (∀ inverse : String,
      define_pinn_select 2 false inverse = Except.ok (PdeChoice.pde_2D, none))
    ∧ (∀ inverse : String, inverse ≠ "" → 'd' ∈ inverse.data →
      define_pinn_select 2 true inverse =
        Except.ok (PdeChoice.pde_2D_heter, some OutTransform.modify_inv_heter))
    ∧ (∀ inverse : String, ¬(inverse ≠ "" ∧ 'd' ∈ inverse.data) →
      define_pinn_select 2 true inverse =
        Except.ok (PdeChoice.pde_2D_heter_forward, some OutTransform.modify_heter)) := by
  refine ⟨?_, ?_, ?_, ?_⟩
  · intro heter inverse
    simp [define_pinn_select]
  · intro inverse
    simp [define_pinn_select]
  · intro inverse h1 h2
    simp [define_pinn_select, h1, h2]
  · intro inverse h
    by_cases hinv : inverse = ""
    · simp [define_pinn_select, hinv]
    · have hd : ¬('d' ∈ inverse.data) := fun hmem => h ⟨hinv, hmem⟩
      simp [define_pinn_select, hinv, hd]

/-- C3 witness: the two heterogeneous rows evaluated at the flag strings
`"d"` and `""`. -/
theorem C3_residual_selection_witness :
    define_pinn_select 2 true "d" =
      Except.ok (PdeChoice.pde_2D_heter, some OutTransform.modify_inv_heter) ∧
    define_pinn_select 2 true "" =
      Except.ok (PdeChoice.pde_2D_heter_forward, some OutTransform.modify_heter) :=
  ⟨C3_residual_selection.2.2.1 "d" (by decide) (by decide),
   C3_residual_selection.2.2.2 "" (by decide)⟩

/-- C4 counterexample: at the uncovered configuration `dimension = 3` the
selection does not produce the specification's explicit configuration error;
it falls through every branch, so the first use of the unassigned local `pde`
raises an unbound-local error instead. -/
theorem C4_unsupported_cfg_counterexample :
    define_pinn_select 3 false "" = Except.error AssemblyError.unboundLocalPde ∧
    define_pinn_select 3 false "" ≠
      Except.error AssemblyError.unsupportedConfiguration := by
  constructor
  · rfl
  · intro h
    exact absurd (Except.error.inj (rfl.trans h)) (by decide)

/-- C4 (amended): every configuration not covered by the residual-selection
table (any dimension outside {1, 2}; dimensions 1 and 2 are always covered)
aborts assembly, but with the unbound-local failure of reading the unassigned
`pde` variable rather than an explicit unsupported-configuration error. -/
theorem C4_unsupported_cfg_amended (dim : ℕ) (heter : Bool) (inverse : String)
    (h1 : dim ≠ 1) (h2 : dim ≠ 2) :
    define_pinn_select dim heter inverse = Except.error AssemblyError.unboundLocalPde := by
  simp only [define_pinn_select]
  rw [if_neg h1, if_neg (by simp [h2]), if_neg (by simp [h2])]

/-- C4 witness: the amended behaviour at `dimension = 4`. -/
theorem C4_unsupported_cfg_witness :
    define_pinn_select 4 true "d" = Except.error AssemblyError.unboundLocalPde :=
  C4_unsupported_cfg_amended 4 true "d" (by decide) (by decide)

/-! ## Claims about stabilized initialization (C1, C2) -/

/-- The loss sequence of sixteen NaN attempts followed by an acceptable
loss `3.9` on the seventeenth attempt. -/
def lossesNaN16ThenGood : ℕ → Option ℚ := fun n => if n ≤ 16 then none else some 3.9

/-- C1 counterexample: on the seventeenth one-epoch training attempt — the
last the retry budget permits — the observed loss `3.9` is finite and at most
`MAX_LOSS = 4`, yet `stable_init` raises the initialization-exceeded error
instead of accepting, because the attempt-counter check fires before the loss
is re-tested by the `while` condition. -/
theorem C1_accept_counterexample :
    isBadLoss 4 (lossesNaN16ThenGood 17) = false ∧
    stable_init lossesNaN16ThenGood 4 16 = InitResult.initExceeded 17 := by
  constructor
  · have h17 : lossesNaN16ThenGood 17 = some 3.9 := by norm_num [lossesNaN16ThenGood]
    rw [h17]
    simp only [isBadLoss, decide_eq_false_iff_not, not_lt]
    norm_num
  · exact stableInitLoop_exceeds lossesNaN16ThenGood 4 16 17 1 le_rfl (by norm_num)
      (by omega)
      (fun m h1 h2 => by simp [lossesNaN16ThenGood, isBadLoss, h2])

/-- C1 (amended): whenever one of the first sixteen attempts observes a
finite loss at most `MAX_LOSS = 4` and every earlier attempt observed NaN or
a loss above 4, `stable_init` accepts at that attempt, with no further
reinitialization and no error; in particular the claimed behaviour on the
sequence [NaN, 5.0, 3.9] holds (two reinitializations, acceptance on the
third attempt, see the witness). On the seventeenth attempt — the last the
retry budget permits — acceptance cannot occur: the error is raised whatever
that attempt's loss is (see the counterexample). -/
theorem C1_accept_amended (losses : ℕ → Option ℚ) (n : ℕ)
    (hn1 : 1 ≤ n) (hn16 : n ≤ 16)
    (hbad : ∀ m, m < n → 1 ≤ m → isBadLoss 4 (losses m) = true)
    (hgood : isBadLoss 4 (losses n) = false) :
    stable_init losses 4 16 = InitResult.accepted n :=
  stableInitLoop_accepts losses 4 16 (16 + 1) 1 n hn1 hn16 (by omega)
    (fun m hm1 hm2 => hbad m hm2 hm1) hgood

/-- The simulated first-epoch loss sequence [NaN, 5.0, 3.9]. -/
def lossesNaN5ThenGood : ℕ → Option ℚ := fun n =>
  if n = 1 then none else if n = 2 then some 5 else some 3.9

/-- C1 witness: on the loss sequence [NaN, 5.0, 3.9] the loop reinitializes
twice and accepts on the third one-epoch training attempt. -/
theorem C1_accept_witness :
    stable_init lossesNaN5ThenGood 4 16 = InitResult.accepted 3 :=
  C1_accept_amended lossesNaN5ThenGood 3 (by norm_num) (by norm_num)
    (by
      intro m hm3 hm1
      interval_cases m <;> norm_num [lossesNaN5ThenGood, isBadLoss])
    (by
      have h3 : lossesNaN5ThenGood 3 = some 3.9 := by norm_num [lossesNaN5ThenGood]
      rw [h3]
      simp only [isBadLoss, decide_eq_false_iff_not, not_lt]
      norm_num)

/-- C2: if every observed first-epoch loss is NaN or exceeds `MAX_LOSS = 4`,
`stable_init` performs the initial attempt plus exactly sixteen
reinitialization retries — seventeen one-epoch trainings in total — and then
raises the initialization-exceeded error; and for any loss sequence whatever,
it never performs more than seventeen one-epoch trainings, so stabilization
terminates. -/
theorem C2_init_exceeded :
    (∀ losses : ℕ → Option ℚ,
      (∀ m, 1 ≤ m → m ≤ 17 → isBadLoss 4 (losses m) = true) →
      stable_init losses 4 16 = InitResult.initExceeded 17)
    ∧ ∀ losses : ℕ → Option ℚ, trainCallsOf (stable_init losses 4 16) ≤ 17 := by
  constructor
  · intro losses hbad
    exact stableInitLoop_exceeds losses 4 16 17 1 le_rfl (by norm_num) (by omega)
      (fun m h1 h2 => hbad m h1 (by omega))
  · intro losses
    exact stableInitLoop_trainCalls_le losses 4 16 17 1 (losses 1) (by norm_num)

/-- C2 witness: an all-NaN loss sequence reaches the error after exactly
seventeen one-epoch trainings. -/
theorem C2_init_exceeded_witness :
    stable_init (fun _ => none) 4 16 = InitResult.initExceeded 17 ∧
    trainCallsOf (stable_init (fun _ => none) 4 16) ≤ 17 :=
  ⟨C2_init_exceeded.1 (fun _ => none) (fun _ _ _ => rfl),
   C2_init_exceeded.2 (fun _ => none)⟩

/-! ## Claim about the training schedule (C7) -/

/-- C7: for dimension 2 the schedule is exactly three phases in order —
Adam at the literal rate `0.0005` with loss weights `[0,0,0,0,1]` for
`epochs_init` epochs, Adam at the configured rate with default weighting for
`epochs_main` epochs, then L-BFGS-B with no epoch budget — and the optimizer
schedule is the same whatever the inverse flag is; when the inverse flag is
truthy, a variable-tracking callback with period 1000 writing
`"variables_" ++ inverse ++ ".dat"` is attached to all three phases and to
the single 1D phase, and no callback is attached otherwise. -/
theorem C7_phase_schedule (p : HParams) (inverse : String) :
    (train_3_phase p inverse).map phaseOptimizerCfg =
      [(Optimizer.adam, some 0.0005, some [0, 0, 0, 0, 1], some p.epochs_init),
       (Optimizer.adam, some p.lr, none, some p.epochs_main),
       (Optimizer.lbfgsb, none, none, none)]
    ∧ (train_3_phase p inverse).map phaseOptimizerCfg =
        (train_3_phase p "").map phaseOptimizerCfg
    ∧ (inverse ≠ "" →
        (train_3_phase p inverse).map PhaseCfg.callbacks =
          [[{ period := 1000, filename := "variables_" ++ inverse ++ ".dat" }],
           [{ period := 1000, filename := "variables_" ++ inverse ++ ".dat" }],
           [{ period := 1000, filename := "variables_" ++ inverse ++ ".dat" }]] ∧
        (train_1_phase p inverse).map PhaseCfg.callbacks =
          [[{ period := 1000, filename := "variables_" ++ inverse ++ ".dat" }]])
    ∧ (inverse = "" →
        (train_3_phase p inverse).map PhaseCfg.callbacks = [[], [], []] ∧
        (train_1_phase p inverse).map PhaseCfg.callbacks = [[]]) := by
  by_cases hinv : inverse = "" <;>
    simp [train_3_phase, train_1_phase, phaseOptimizerCfg, hinv]

/-- C7 witness: the three-phase callback attachment evaluated for the
inverse flag `"d"` on the 2D forward hyperparameters. -/
theorem C7_phase_schedule_witness :
    (train_3_phase (pinn_init 2 false "d") "d").map PhaseCfg.callbacks =
      [[{ period := 1000, filename := "variables_" ++ "d" ++ ".dat" }],
       [{ period := 1000, filename := "variables_" ++ "d" ++ ".dat" }],
       [{ period := 1000, filename := "variables_" ++ "d" ++ ".dat" }]] :=
  ((C7_phase_schedule (pinn_init 2 false "d") "d").2.2.1 (by decide)).1

/-! ## Claim about the reconstruction's grid spacing (C8) -/

/-- `mkDArray` can only fail with the unbound-local error, never with an
attribute error. -/
theorem mkDArray_ne_attributeError (X Y : ℕ) (D : DiffusionField) :
    mkDArray X Y D ≠ Except.error RuntimeErr.attributeError := by
  cases D with
  | scalar d => simp [mkDArray]
  | array m n entries =>
    by_cases h : m = X + 2 ∧ n = Y + 2 <;> simp [mkDArray, h]

/-- A dynamics collaborator that supplies every field, `spacing` included. -/
def dynWithSpacing : Dynamics :=
  { max_x := 4, max_y := 4, max_t := 1, D := DiffusionField.scalar 1,
    elecpos := [(0, 0)], spacing := 1 }

/-- C8 counterexample: on a freshly constructed trainer, reconstruction
fails with an attribute error even though the dynamics object supplies
`spacing = 1`: the gradient calls read the trainer's own `spacing`
attribute, which `PINN.__init__` never assigns, not the collaborator's. -/
theorem C8_spacing_counterexample :
    num_integration (fun q => q) (PINN_mk dynWithSpacing 2 false "") (fun _ => 0) =
      Except.error RuntimeErr.attributeError := rfl

/-- C8 (amended): the grid spacing consumed by reconstruction is the
trainer's own `spacing` attribute, never the dynamics collaborator's field:
reconstruction on an as-constructed trainer never succeeds (and fails with
an attribute error whenever `D` is scalar, whatever `dynamics.spacing` is);
the result is unchanged by any value of `dynamics.spacing`; and once the
caller assigns the trainer's `spacing` attribute the attribute error is
gone. -/
theorem C8_spacing_amended :
    (∀ (dyn : Dynamics) (dim : ℕ) (heter : Bool) (inverse : String)
       (sqrtFn : ℚ → ℚ) (vflat : ℕ → ℚ) (res : List (List (Option ℚ))),
      num_integration sqrtFn (PINN_mk dyn dim heter inverse) vflat ≠ Except.ok res)
    ∧ (∀ (dyn : Dynamics) (dim : ℕ) (heter : Bool) (inverse : String)
       (sqrtFn : ℚ → ℚ) (vflat : ℕ → ℚ) (d : ℚ), dyn.D = DiffusionField.scalar d →
      num_integration sqrtFn (PINN_mk dyn dim heter inverse) vflat =
        Except.error RuntimeErr.attributeError)
    ∧ (∀ (p : PINNState) (s : ℚ) (sqrtFn : ℚ → ℚ) (vflat : ℕ → ℚ),
      num_integration sqrtFn { p with dynamics := { p.dynamics with spacing := s } } vflat =
        num_integration sqrtFn p vflat)
    ∧ (∀ (p : PINNState) (h : ℚ) (sqrtFn : ℚ → ℚ) (vflat : ℕ → ℚ), p.spacing = some h →
      num_integration sqrtFn p vflat ≠ Except.error RuntimeErr.attributeError) := by
  refine ⟨?_, ?_, ?_, ?_⟩
  · intro dyn dim heter inverse sqrtFn vflat res
    simp only [num_integration, PINN_mk]
    split <;> simp
  · intro dyn dim heter inverse sqrtFn vflat d hD
    simp [num_integration, PINN_mk, hD, mkDArray]
  · intro p s sqrtFn vflat
    cases p with
    | mk dyn dim heter inverse hp sp =>
      cases dyn with
      | mk X Y T D el spc =>
        cases D with
        | scalar d => cases sp <;> rfl
        | array m n entries =>
          by_cases h : m = X + 2 ∧ n = Y + 2 <;> cases sp <;>
            simp [num_integration, mkDArray, h]
  · intro p h sqrtFn vflat hsp heq
    simp only [num_integration, hsp] at heq
    split at heq
    · rename_i e hD
      rw [Except.error.injEq] at heq
      exact mkDArray_ne_attributeError _ _ _ (by rw [hD, heq])
    · exact Except.noConfusion heq

/-- C8 witness: the amended behaviour at a concrete trainer — the scalar-`D`
attribute failure on an as-constructed trainer, and its disappearance once
the caller assigns the trainer's `spacing` attribute. -/
theorem C8_spacing_witness :
    num_integration (fun q => q) (PINN_mk dynWithSpacing 2 false "") (fun _ => 7) =
      Except.error RuntimeErr.attributeError ∧
    num_integration (fun q => q)
        { PINN_mk dynWithSpacing 2 false "" with spacing := some 1 } (fun _ => 7) ≠
      Except.error RuntimeErr.attributeError :=
  ⟨C8_spacing_amended.2.1 dynWithSpacing 2 false "" (fun q => q) (fun _ => 7) 1 rfl,
   C8_spacing_amended.2.2.2
     { PINN_mk dynWithSpacing 2 false "" with spacing := some 1 } 1
     (fun q => q) (fun _ => 7) rfl⟩

/-! ### NaN-propagation and constant-field lemmas for reconstruction -/

/-- NaN absorbs on the left of addition. -/
theorem oadd_none_left (x : Option ℚ) : oadd none x = none := by cases x <;> rfl

/-- NaN absorbs on the right of addition. -/
theorem oadd_none_right (x : Option ℚ) : oadd x none = none := by cases x <;> rfl

/-- A sum of exact zeros is exactly zero. -/
theorem osum_all_zero : ∀ l : List (Option ℚ), (∀ a ∈ l, a = some 0) → osum l = some 0
  | [], _ => rfl
  | a :: l, h => by
    have ha := h a (List.mem_cons_self a l)
    have hl := osum_all_zero l (fun b hb => h b (List.mem_cons_of_mem a hb))
    simp only [osum, ha, hl]
    simp [oadd]

/-- A sum with a NaN term is NaN. -/
theorem osum_none_of_mem : ∀ l : List (Option ℚ), none ∈ l → osum l = none := by
  intro l hl
  induction l with
  | nil => cases hl
  | cons a l ih =>
    rcases List.mem_cons.mp hl with h1 | h2
    · simp only [osum, ← h1]
      exact oadd_none_left _
    · simp only [osum, ih h2]
      exact oadd_none_right _

/-- The trapezoidal integral of an exactly-zero sample vector is exactly zero. -/
theorem otrapz_all_zero {n : ℕ} (y : Fin n → Option ℚ) (hy : ∀ i, y i = some 0) :
    otrapz y = some 0 := by
  unfold otrapz
  apply osum_all_zero
  intro a ha
  obtain ⟨i, hi⟩ := Set.mem_range.mp ((List.mem_ofFn _ _).mp ha)
  rw [← hi, hy, hy]
  simp [oadd, ohalf]

/-- The trapezoidal integral of a sample vector of length at least 2 whose
first sample is NaN is NaN. -/
theorem otrapz_none_head {n : ℕ} (y : Fin n → Option ℚ) (hn : 2 ≤ n)
    (h0 : ∀ h1 : 0 < n, y ⟨0, h1⟩ = none) : otrapz y = none := by
  unfold otrapz
  apply osum_none_of_mem
  refine (List.mem_ofFn _ _).mpr (Set.mem_range.mpr ⟨⟨0, by omega⟩, ?_⟩)
  simp only [h0 (by omega : 0 < n), oadd_none_left]
  rfl

/-- The axis-0 numpy gradient of a constant array vanishes identically. -/
theorem gradAxis0_const {m n : ℕ} (h c : ℚ) (v : Mat m n) (hv : ∀ i j, v i j = c)
    (i : Fin m) (j : Fin n) : gradAxis0 h v i j = 0 := by
  unfold gradAxis0
  split_ifs <;> simp [hv]

/-- The axis-1 numpy gradient of a constant array vanishes identically. -/
theorem gradAxis1_const {m n : ℕ} (h c : ℚ) (v : Mat m n) (hv : ∀ i j, v i j = c)
    (i : Fin m) (j : Fin n) : gradAxis1 h v i j = 0 := by
  unfold gradAxis1
  split_ifs <;> simp [hv]

/-- The nearest-mode discrete Laplacian of a constant array vanishes
identically. -/
theorem ndLaplace_const {m n : ℕ} (c : ℚ) (v : Mat m n) (hv : ∀ i j, v i j = c)
    (i : Fin m) (j : Fin n) : ndLaplace v i j = 0 := by
  unfold ndLaplace
  simp only [hv]
  ring

/-- The current-source term vanishes identically for a scalar (broadcast)
diffusion array and a per-timestep constant state field. -/
theorem duField_const_zero {X Y : ℕ} (spacing d c : ℚ) (v_t : Mat X Y)
    (hv : ∀ i j, v_t i j = c) (i : Fin X) (j : Fin Y) :
    duField spacing (fun _ _ => d) v_t i j = 0 := by
  unfold duField
  rw [ndLaplace_const c v_t hv i j,
    gradAxis0_const spacing c v_t hv i j, gradAxis1_const spacing c v_t hv i j,
    gradAxis0_const spacing d (fun _ _ => d) (fun _ _ => rfl) i j,
    gradAxis1_const spacing d (fun _ _ => d) (fun _ _ => rfl) i j]
  ring

/-- Dividing an exactly-zero source entry by a nonzero distance gives
exactly zero. -/
theorem divEntry_zero_num (sqrtFn : ℚ → ℚ) (dsq : ℚ) (h : dsq ≠ 0) :
    divEntry sqrtFn 0 dsq = some 0 := by
  simp [divEntry, h]

/-- The electrode potential is exactly zero whenever the source term is
exactly zero and the electrode's distance kernel has no zero entry. -/
theorem phieEntry_zero {X Y : ℕ} (sqrtFn : ℚ → ℚ) (du : Mat X Y) (ex ey : ℚ)
    (hdu : ∀ i j, du i j = 0)
    (hdist : ∀ (c : Fin (X - 2)) (r : Fin (Y - 2)), distSq c.val r.val ex ey ≠ 0) :
    phieEntry sqrtFn du ex ey = some 0 := by
  unfold phieEntry
  have hinner : ∀ r : Fin (Y - 2),
      otrapz (fun c : Fin (X - 2) => phieIntegrand sqrtFn du ex ey c r) = some 0 := by
    intro r
    apply otrapz_all_zero
    intro c
    unfold phieIntegrand
    rw [hdu]
    exact divEntry_zero_num sqrtFn _ (hdist c r)
  rw [otrapz_all_zero _ hinner]
  simp [oneg]

/-- The electrode potential is NaN whenever the distance kernel vanishes at
the trimmed grid's corner, for any source field, on grids of extent at
least 4. -/
theorem phieEntry_none_head {X Y : ℕ} (sqrtFn : ℚ → ℚ) (du : Mat X Y) (ex ey : ℚ)
    (hX : 4 ≤ X) (hY : 4 ≤ Y) (h00 : distSq 0 0 ex ey = 0) :
    phieEntry sqrtFn du ex ey = none := by
  unfold phieEntry
  rw [otrapz_none_head _ (by omega) ?_]
  · rfl
  · intro h1
    apply otrapz_none_head _ (by omega)
    intro h2
    unfold phieIntegrand
    simp [divEntry, h00]

/-! ## Claims about potential-field reconstruction (C9, C10) -/

/-- A uniform-field dynamics instance whose single electrode at `(0, 0)`
keeps every kernel distance nonzero. -/
def dynUniform : Dynamics :=
  { max_x := 3, max_y := 3, max_t := 2, D := DiffusionField.scalar 1,
    elecpos := [(0, 0)], spacing := 1 }

/-- The trainer on `dynUniform` after construction and after the caller has
assigned the trainer's `spacing` attribute (as the driver scripts do). -/
def pinnUniform : PINNState :=
  { dynamics := dynUniform, dim := 2, heter := false, inverse := "",
    hp := pinn_init 2 false "", spacing := some 1 }

/-- A dynamics instance whose single electrode sits at the integer interior
grid point `(2, 2)`, making the distance kernel vanish there. -/
def dynCoincident : Dynamics :=
  { max_x := 4, max_y := 4, max_t := 1, D := DiffusionField.scalar 1,
    elecpos := [(2, 2)], spacing := 1 }

/-- The trainer on `dynCoincident` with the `spacing` attribute assigned. -/
def pinnCoincident : PINNState :=
  { dynamics := dynCoincident, dim := 2, heter := false, inverse := "",
    hp := pinn_init 2 false "", spacing := some 1 }

/-- C9 counterexample: with a state field constant in x and y, scalar
diffusion `D = 1`, and the electrode at the integer interior point `(2, 2)`,
the reconstructed potential is NaN (the division of the zero source entry by
the zero kernel distance), not exactly zero. -/
theorem C9_reconstruction_counterexample :
    num_integration (fun q => q) pinnCoincident (fun _ => 1) = Except.ok [[none]] ∧
    num_integration (fun q => q) pinnCoincident (fun _ => 1) ≠ Except.ok [[some 0]] := by
  have hmain : num_integration (fun q => q) pinnCoincident (fun _ => 1) =
      Except.ok [[none]] := by
    show Except.ok
        [[phieEntry (fun q => q)
            (duField 1 (fun _ _ => 1) fun i j => vtrans 4 4 1 (fun _ => 1) i j 0)
            2 2]] =
      Except.ok [[none]]
    rw [phieEntry_none_head (fun q => q) _ 2 2 (by norm_num) (by norm_num)
      (by norm_num [distSq])]
  exact ⟨hmain, by rw [hmain]; simp⟩

/-- C9 (amended): for a predicted state field constant in x and y at each
time step, a scalar diffusion coefficient, nonzero grid spacing, and every
electrode whose distance kernel has no zero entry, the reconstruction is
exactly zero at every electrode and every time step (an electrode at an
integer interior grid point instead yields NaN, see the counterexample);
and every successful reconstruction has shape (number of electrode columns,
max_t). The spacing and square-root hypotheses delimit where the exact
model matches floating point: a zero spacing or a zero square root would
make the float computation NaN rather than zero. -/
theorem C9_reconstruction_amended :
    (∀ (p : PINNState) (vflat : ℕ → ℚ) (sqrtFn : ℚ → ℚ) (h d : ℚ)
       (c : Fin p.dynamics.max_t → ℚ),
      p.spacing = some h → h ≠ 0 →
      (∀ q : ℚ, 0 < q → 0 < sqrtFn q) →
      p.dynamics.D = DiffusionField.scalar d →
      (∀ (t : Fin p.dynamics.max_t) (x : Fin p.dynamics.max_x)
         (y : Fin p.dynamics.max_y),
        vtrans p.dynamics.max_x p.dynamics.max_y p.dynamics.max_t vflat x y t = c t) →
      (∀ e ∈ p.dynamics.elecpos,
        ∀ (cc : Fin (p.dynamics.max_x - 2)) (rr : Fin (p.dynamics.max_y - 2)),
          distSq cc.val rr.val e.1 e.2 ≠ 0) →
      num_integration sqrtFn p vflat =
        Except.ok (List.replicate p.dynamics.elecpos.length
          (List.replicate p.dynamics.max_t (some 0))))
    ∧ (∀ (sqrtFn : ℚ → ℚ) (p : PINNState) (vflat : ℕ → ℚ)
         (res : List (List (Option ℚ))),
        num_integration sqrtFn p vflat = Except.ok res →
        res.length = p.dynamics.elecpos.length ∧
          ∀ row ∈ res, row.length = p.dynamics.max_t) := by
  constructor
  · intro p vflat sqrtFn h d c hsp hh hsqrt hD hconst hdist
    simp only [num_integration, hD, mkDArray, hsp]
    congr 1
    unfold phieMatrix
    rw [← List.ofFn_const p.dynamics.elecpos.length
      (List.replicate p.dynamics.max_t (some (0 : ℚ)))]
    congr 1
    funext k
    rw [← List.ofFn_const p.dynamics.max_t (some (0 : ℚ))]
    congr 1
    funext t
    apply phieEntry_zero
    · intro i j
      exact duField_const_zero h d (c t) _ (fun i2 j2 => hconst t i2 j2) i j
    · intro cc rr
      exact hdist (p.dynamics.elecpos.get k)
        (p.dynamics.elecpos.get_mem k.1 k.2) cc rr
  · intro sqrtFn p vflat res heq
    unfold num_integration at heq
    split at heq
    · exact absurd heq (by simp)
    · split at heq
      · exact absurd heq (by simp)
      · rw [Except.ok.injEq] at heq
        subst heq
        constructor
        · simp [phieMatrix]
        · intro row hrow
          unfold phieMatrix at hrow
          obtain ⟨k, hk⟩ := Set.mem_range.mp ((List.mem_ofFn _ _).mp hrow)
          rw [← hk, List.length_ofFn]

/-- C9 witness: on a 3×3 grid over two time steps with the constant field 7,
scalar `D = 1`, spacing 1, and an electrode at `(0, 0)` (all kernel
distances nonzero), the reconstruction is the 1×2 all-zero array. -/
theorem C9_reconstruction_witness :
    num_integration (fun q => q) pinnUniform (fun _ => 7) =
      Except.ok (List.replicate 1 (List.replicate 2 (some 0))) :=
  C9_reconstruction_amended.1 pinnUniform (fun _ => 7) (fun q => q) 1 1 (fun _ => 7)
    rfl one_ne_zero (fun _ hq => hq) rfl (fun _ _ _ => rfl)
    (by
      intro e he cc rr
      have he2 : e = ((0 : ℚ), (0 : ℚ)) := by
        simpa [pinnUniform, dynUniform] using he
      subst he2
      have hc : cc.val = 0 := by
        have := cc.isLt
        simp only [pinnUniform, dynUniform] at this
        omega
      have hr : rr.val = 0 := by
        have := rr.isLt
        simp only [pinnUniform, dynUniform] at this
        omega
      rw [hc, hr]
      norm_num [distSq])

/-- C10: an electrode at integer coordinates `(m, n)` with
`2 ≤ m ≤ max_x - 1` and `2 ≤ n ≤ max_y - 1` makes the distance kernel
vanish at trimmed-grid position `(m - 2, n - 2)`, and the unguarded
elementwise division of the source term by the kernel therefore divides by
zero there — for every source field, hence at every time step. -/
theorem C10_electrode_division_by_zero (X Y m n : ℕ)
    (h2m : 2 ≤ m) (hmX : m ≤ X - 1) (h2n : 2 ≤ n) (hnY : n ≤ Y - 1) :
    distSq (m - 2) (n - 2) (m : ℚ) (n : ℚ) = 0 ∧
    ∀ (sqrtFn : ℚ → ℚ) (du : Mat X Y),
      phieIntegrand sqrtFn du (m : ℚ) (n : ℚ)
        ⟨m - 2, by omega⟩ ⟨n - 2, by omega⟩ = none := by
  have hdz : distSq (m - 2) (n - 2) (m : ℚ) (n : ℚ) = 0 := by
    unfold distSq
    have hm : ((m - 2 : ℕ) : ℚ) = (m : ℚ) - 2 := by
      push_cast [h2m]
      ring
    have hn2 : ((n - 2 : ℕ) : ℚ) = (n : ℚ) - 2 := by
      push_cast [h2n]
      ring
    rw [hm, hn2]
    ring
  refine ⟨hdz, ?_⟩
  intro sqrtFn du
  unfold phieIntegrand
  simp [divEntry, hdz]

/-- C10 witness: the zero kernel entry and NaN division at the electrode
`(2, 2)` on a 4×4 grid, for a concrete source field. -/
theorem C10_electrode_division_by_zero_witness :
    distSq (2 - 2) (2 - 2) ((2 : ℕ) : ℚ) ((2 : ℕ) : ℚ) = 0 ∧
    phieIntegrand (fun q => q) (fun _ _ => (5 : ℚ) : Mat 4 4)
      ((2 : ℕ) : ℚ) ((2 : ℕ) : ℚ) ⟨2 - 2, by omega⟩ ⟨2 - 2, by omega⟩ = none :=
  ⟨(C10_electrode_division_by_zero 4 4 2 2 (by norm_num) (by norm_num) (by norm_num)
      (by norm_num)).1,
   (C10_electrode_division_by_zero 4 4 2 2 (by norm_num) (by norm_num) (by norm_num)
      (by norm_num)).2 (fun q => q) (fun _ _ => (5 : ℚ))⟩
